import Mathlib

/-!
Verification of the filesystem-backed record store and aggregation engine of
the `project_tracker` repository.

The development shallowly embeds the Python source:

* `Value` models a parsed JSON value (`json.load` output).  Python's
  dataclasses do not enforce field types, so entity structures (`Project`,
  `TimeEntry`) store raw `Value`s in their fields, exactly as
  `Project(**data)` would.
* Documents (parsed JSON objects) are association lists
  `List (String × Value)`; JSON objects produced by `json.load` have unique
  keys, and Python `dict`s preserve insertion order, update in place, and
  append new keys — mirrored by `alookup` / `aset`.
* `decodeProject` / `encodeProject` and friends model
  `Project(**data)` (app/models.py) and `asdict(project)`
  (app/data_service.py, save_project); a decoder returning `none` models the
  constructor raising `TypeError` / `KeyError`.
* Aggregation code (`get_project_total_hours`, `_get_user_last_activity`,
  the reports screen) reads raw entry dicts, not `TimeEntry` objects;
  `RawEntry` is the projection of such a dict onto exactly the keys that
  code reads, with values typed as the code consumes them (strings and
  integers; a non-string/non-integer value there would raise `TypeError`
  in Python and is outside the model).  JSON numbers are modelled as
  integers; exact ratio arithmetic is carried out in `ℚ` in place of
  Python floats, which is faithful for every claim below (the claims are
  about which divisions happen, not float rounding).
-/

/-! ## JSON values -/

mutual

inductive Value where
  | vnull : Value
  | vbool (b : Bool) : Value
  | vint (n : Int) : Value
  | vstr (s : String) : Value
  | vlist (xs : VList) : Value
  | vobj (fields : VObj) : Value
deriving DecidableEq

inductive VList where
  | nil : VList
  | cons (hd : Value) (tl : VList) : VList
deriving DecidableEq

inductive VObj where
  | nil : VObj
  | cons (key : String) (val : Value) (tl : VObj) : VObj
deriving DecidableEq

end

def VList.toList : VList → List Value
  | .nil => []
  | .cons x tl => x :: tl.toList

def VList.ofList : List Value → VList
  | [] => .nil
  | x :: xs => .cons x (VList.ofList xs)

def VObj.toPairs : VObj → List (String × Value)
  | .nil => []
  | .cons k v tl => (k, v) :: tl.toPairs

def VObj.ofPairs : List (String × Value) → VObj
  | [] => .nil
  | (k, v) :: rest => .cons k v (VObj.ofPairs rest)

/-- Python truthiness of a JSON value (`if value:`). -/
def Value.truthy : Value → Bool
  | .vnull => false
  | .vbool b => b
  | .vint n => n != 0
  | .vstr s => s != ""
  | .vlist .nil => false
  | .vlist (.cons _ _) => true
  | .vobj .nil => false
  | .vobj (.cons _ _ _) => true

/-- Whether a JSON value may be used as a Python `dict` key
(`dict`s and `list`s are unhashable). -/
def Value.hashable : Value → Bool
  | .vlist _ => false
  | .vobj _ => false
  | _ => true

/-! ## Association lists: the model of Python `dict`s

Python dicts keep insertion order; assigning to an existing key updates the
value in place, assigning to a fresh key appends. -/

def alookup {α β : Type} [DecidableEq α] : List (α × β) → α → Option β
  | [], _ => none
  | (k, v) :: rest, key => if k = key then some v else alookup rest key

def aset {α β : Type} [DecidableEq α] : List (α × β) → α → β → List (α × β)
  | [], key, val => [(key, val)]
  | (k, v) :: rest, key, val =>
    if k = key then (key, val) :: rest else (k, v) :: aset rest key val

/-! ## Entities and the record codec

`Project` mirrors the dataclass in app/models.py, field for field, including
the legacy flat fields, with the dataclass defaults.  Python dataclasses do
not enforce the annotated types, so every field holds a raw `Value`. -/

structure Project where
  id : Value
  name : Value
  project_id : Value := .vstr ""
  status : Value := .vstr "Not Started"
  target_hours : Value := .vint 0
  team_assignments : Value := .vobj .nil
  custom_fields : Value := .vobj .nil
  tms : Value := .vlist .nil
  tags : Value := .vlist .nil
  notes : Value := .vstr ""
  created_at : Value := .vstr ""
  created_by : Value := .vstr ""
  modified_at : Value := .vstr ""
  modified_by : Value := .vstr ""
  campus : Value := .vstr ""
  offer : Value := .vstr ""
  sub_offer : Value := .vstr ""
  course_id : Value := .vstr ""
  effort_type : Value := .vstr ""
  course_type : Value := .vstr ""
  course_duration_minutes : Value := .vint 0
  lpo : Value := .vstr ""
  sme : Value := .vstr ""
  lxo : Value := .vstr ""
deriving DecidableEq

/-- The dataclass field names of `Project`, in declaration order. -/
def projectFieldKeys : List String :=
  ["id", "name", "project_id", "status", "target_hours", "team_assignments",
   "custom_fields", "tms", "tags", "notes", "created_at", "created_by",
   "modified_at", "modified_by", "campus", "offer", "sub_offer", "course_id",
   "effort_type", "course_type", "course_duration_minutes", "lpo", "sme",
   "lxo"]

def getV (doc : List (String × Value)) (k : String) (d : Value) : Value :=
  (alookup doc k).getD d

def hasKeyB (doc : List (String × Value)) (k : String) : Bool :=
  (alookup doc k).isSome

/-- `Project(**data)` (load_projects, app/data_service.py).  The call raises
`TypeError` — modelled as `none` — exactly when some key of the document is
not a dataclass field name or one of the default-less fields `id`, `name`
is absent; otherwise each present key supplies its value and every other
field takes its dataclass default. -/
def decodeProject (doc : List (String × Value)) : Option Project :=
  if (doc.all fun kv => projectFieldKeys.contains kv.1)
      && hasKeyB doc "id" && hasKeyB doc "name" then
    some
      { id := getV doc "id" .vnull
        name := getV doc "name" .vnull
        project_id := getV doc "project_id" (.vstr "")
        status := getV doc "status" (.vstr "Not Started")
        target_hours := getV doc "target_hours" (.vint 0)
        team_assignments := getV doc "team_assignments" (.vobj .nil)
        custom_fields := getV doc "custom_fields" (.vobj .nil)
        tms := getV doc "tms" (.vlist .nil)
        tags := getV doc "tags" (.vlist .nil)
        notes := getV doc "notes" (.vstr "")
        created_at := getV doc "created_at" (.vstr "")
        created_by := getV doc "created_by" (.vstr "")
        modified_at := getV doc "modified_at" (.vstr "")
        modified_by := getV doc "modified_by" (.vstr "")
        campus := getV doc "campus" (.vstr "")
        offer := getV doc "offer" (.vstr "")
        sub_offer := getV doc "sub_offer" (.vstr "")
        course_id := getV doc "course_id" (.vstr "")
        effort_type := getV doc "effort_type" (.vstr "")
        course_type := getV doc "course_type" (.vstr "")
        course_duration_minutes := getV doc "course_duration_minutes" (.vint 0)
        lpo := getV doc "lpo" (.vstr "")
        sme := getV doc "sme" (.vstr "")
        lxo := getV doc "lxo" (.vstr "") }
  else none

/-- `asdict(project)` (save_project, app/data_service.py): every dataclass
field, legacy ones included, in declaration order. -/
def encodeProject (p : Project) : List (String × Value) :=
  [("id", p.id), ("name", p.name), ("project_id", p.project_id),
   ("status", p.status), ("target_hours", p.target_hours),
   ("team_assignments", p.team_assignments),
   ("custom_fields", p.custom_fields), ("tms", p.tms), ("tags", p.tags),
   ("notes", p.notes), ("created_at", p.created_at),
   ("created_by", p.created_by), ("modified_at", p.modified_at),
   ("modified_by", p.modified_by), ("campus", p.campus), ("offer", p.offer),
   ("sub_offer", p.sub_offer), ("course_id", p.course_id),
   ("effort_type", p.effort_type), ("course_type", p.course_type),
   ("course_duration_minutes", p.course_duration_minutes), ("lpo", p.lpo),
   ("sme", p.sme), ("lxo", p.lxo)]

/-- `TimeEntry` dataclass (app/models.py): `id`, `project_id`, `work_type`,
`hours`, `date` have no defaults; `notes` and `created_at` default to `""`. -/
structure TimeEntry where
  id : Value
  project_id : Value
  work_type : Value
  hours : Value
  date : Value
  notes : Value := .vstr ""
  created_at : Value := .vstr ""
deriving DecidableEq

def timeEntryFieldKeys : List String :=
  ["id", "project_id", "work_type", "hours", "date", "notes", "created_at"]

/-- `TimeEntry(**e)` (load_today_entries, app/data_service.py). -/
def decodeTimeEntry (doc : List (String × Value)) : Option TimeEntry :=
  if (doc.all fun kv => timeEntryFieldKeys.contains kv.1)
      && hasKeyB doc "id" && hasKeyB doc "project_id"
      && hasKeyB doc "work_type" && hasKeyB doc "hours"
      && hasKeyB doc "date" then
    some
      { id := getV doc "id" .vnull
        project_id := getV doc "project_id" .vnull
        work_type := getV doc "work_type" .vnull
        hours := getV doc "hours" .vnull
        date := getV doc "date" .vnull
        notes := getV doc "notes" (.vstr "")
        created_at := getV doc "created_at" (.vstr "") }
  else none

/-- `asdict(entry)` (save_time_entry, app/data_service.py). -/
def encodeTimeEntry (t : TimeEntry) : List (String × Value) :=
  [("id", t.id), ("project_id", t.project_id), ("work_type", t.work_type),
   ("hours", t.hours), ("date", t.date), ("notes", t.notes),
   ("created_at", t.created_at)]

/-- `DailyTimeFile` dataclass (app/models.py). -/
structure DailyTimeFile where
  user_id : Value
  date : Value
  entries : List TimeEntry := []
deriving DecidableEq

/-- One element of a daily file's `entries` list: `TimeEntry(**e)` requires
a JSON object (anything else raises when unpacked). -/
def decodeEntryVal : Value → Option TimeEntry
  | .vobj fs => decodeTimeEntry fs.toPairs
  | _ => none

/-- Sequential fallible map, as a Python list comprehension evaluates:
the first failing element aborts the whole construction. -/
def optionMapList {α β : Type} (f : α → Option β) : List α → Option (List β)
  | [] => some []
  | x :: xs =>
    match f x with
    | none => none
    | some y =>
      match optionMapList f xs with
      | none => none
      | some ys => some (y :: ys)

/-- Iterating a JSON value the way Python's `for e in v` does: a list
yields its elements, a string yields its one-character substrings, an
object yields its keys in insertion order; `null`, booleans and numbers
are not iterable and raise `TypeError`. -/
def pyIterate : Value → Option (List Value)
  | .vlist xs => some xs.toList
  | .vstr s => some (s.data.map fun c => Value.vstr (String.mk [c]))
  | .vobj fields => some (fields.toPairs.map fun kv => Value.vstr kv.1)
  | _ => none

/-- Decoding a daily time file (load_today_entries, app/data_service.py):
the comprehension `[TimeEntry(**e) for e in data.get('entries', [])]` runs
first — iterating the `entries` value exactly as Python does (`pyIterate`)
and unpacking each iterated item into `TimeEntry` — and only then do
`data['user_id']` and `data['date']` raise `KeyError` when absent.  Extra
top-level keys are ignored; an `entries` value of `""` or `{}` iterates to
nothing, so the file decodes with an empty entry list. -/
def decodeDailyTimeFile (doc : List (String × Value)) : Option DailyTimeFile :=
  match pyIterate (getV doc "entries" (.vlist .nil)) with
  | none => none
  | some items =>
    match optionMapList decodeEntryVal items with
    | none => none
    | some es =>
      match alookup doc "user_id", alookup doc "date" with
      | some uid, some dt => some { user_id := uid, date := dt, entries := es }
      | _, _ => none

/-- The document shape written for a daily file (save_time_entry,
app/data_service.py): `{'user_id': …, 'date': …, 'entries': […]}`. -/
def encodeDailyTimeFile (d : DailyTimeFile) : List (String × Value) :=
  [("user_id", d.user_id), ("date", d.date),
   ("entries", .vlist (VList.ofList
      (d.entries.map fun e => .vobj (VObj.ofPairs (encodeTimeEntry e)))))]

/-- Whether the `entries` value of a daily-file document (defaulting to
the empty list) iterates successfully and every iterated item decodes as a
`TimeEntry`.  An `entries` value of `""` or `{}` iterates to nothing and
is fine; a non-iterable value (`null`, boolean, number) is not. -/
def dailyEntriesOkB (doc : List (String × Value)) : Bool :=
  match pyIterate (getV doc "entries" (.vlist .nil)) with
  | none => false
  | some items => items.all fun x => (decodeEntryVal x).isSome

/-! ## Raw time-entry dicts and the time directory

The aggregation code (get_project_total_hours, _get_user_last_activity and
the reports screen) reads the raw entry dicts produced by `json.load`, not
decoded `TimeEntry` objects.  `RawEntry` is the projection of such a dict
onto exactly the keys that code reads (`e.key = none` models the key being
absent). -/

structure RawEntry where
  project_id : Option String := none
  hours : Option Int := none
  duration_minutes : Option Int := none
  created_at : Option String := none
  date : Option String := none
  end_time : Option String := none
  work_type : Option String := none
deriving DecidableEq

/-- One file of the `time/` directory: its filename stem (e.g.
`"alice_2024-01-01"`) and its parsed `entries` list, `none` when the file
fails to parse as JSON. -/
structure TimeFile where
  stem : String
  content : Option (List RawEntry)
deriving DecidableEq

/-- Hours contributed by one raw entry: the `hours` field when present,
else the legacy `duration_minutes` field floor-divided by 60, else nothing
(get_project_total_hours in app/data_service.py; the identical expression
appears in the reports screen sums). -/
def entryHours (e : RawEntry) : Int :=
  match e.hours with
  | some h => h
  | none =>
    match e.duration_minutes with
    | some m => Int.fdiv m 60
    | none => 0

/-- `DataService.get_project_total_hours`: scan every file of the time
directory (all users), skip files that fail to parse, and accumulate the
hours of entries whose `project_id` equals the argument. -/
def getProjectTotalHours (pid : String) (files : List TimeFile) : Int :=
  files.foldl (fun acc f =>
    match f.content with
    | none => acc
    | some es => es.foldl (fun a e =>
        if e.project_id == some pid then a + entryHours e else a) acc) 0

/-- The claim's reading of the total: the sum of the `hours` field over
every entry, in every user's file, whose `project_id` equals the given
project id. -/
def specProjectTotalHours (pid : String) (files : List TimeFile) : Int :=
  (files.map fun f =>
    (((f.content.getD []).filter fun e => e.project_id == some pid).map
      fun e => e.hours.getD 0).sum).sum

/-- `glob(f"{user_id}_*.json")`: the stems matched are exactly those that
start with `user_id` followed by an underscore. -/
def strHasPrefix (s p : String) : Bool := p.data.isPrefixOf s.data

/-- Python truthiness of an optional string field (`entry.get(k)` is falsy
when the key is absent or holds the empty string). -/
def truthyS : Option String → Bool
  | some s => s != ""
  | none => false

/-- `entry.get('created_at') or entry.get('date') or entry.get('end_time', '')`
(_get_user_last_activity, app/data_service.py): a three-step fallback whose
last resort is the legacy `end_time` field, defaulting to `""`. -/
def entryTime (e : RawEntry) : String :=
  if truthyS e.created_at then e.created_at.getD ""
  else if truthyS e.date then e.date.getD ""
  else e.end_time.getD ""

/-- The body of the entry loop of `_get_user_last_activity`: for an entry
with a truthy `project_id`, store `entryTime` if the project is new or the
stored timestamp is strictly smaller (Python string comparison). -/
def updActivity (acc : List (String × String)) (e : RawEntry) :
    List (String × String) :=
  if truthyS e.project_id then
    match alookup acc (e.project_id.getD "") with
    | none => aset acc (e.project_id.getD "") (entryTime e)
    | some cur =>
      if cur < entryTime e then aset acc (e.project_id.getD "") (entryTime e)
      else acc
  else acc

/-- `DataService._get_user_last_activity`: scan only the given user's time
files (stem prefix `f"{user_id}_"`), skipping unparseable files, and fold
every entry through `updActivity` starting from the empty dict. -/
def userLastActivity (user : String) (files : List TimeFile) :
    List (String × String) :=
  (files.filter fun f => strHasPrefix f.stem (user ++ "_")).foldl
    (fun acc f =>
      match f.content with
      | none => acc
      | some es => es.foldl updActivity acc) []

/-- The entries of the given user's parseable files, in scan order. -/
def scannedEntries (user : String) (files : List TimeFile) : List RawEntry :=
  (files.filter fun f => strHasPrefix f.stem (user ++ "_")).flatMap
    fun f => f.content.getD []

/-- The timestamps (three-step fallback) of the user's entries for one
project, in scan order. -/
def activityTimes (user : String) (files : List TimeFile) (pid : String) :
    List String :=
  ((scannedEntries user files).filter fun e =>
    truthyS e.project_id && e.project_id == some pid).map entryTime

/-- Left-biased maximum of two strings, as computed by the running
`entry_time > activity[project_id]` comparison. -/
def strMax (a b : String) : String := if a < b then b else a

/-- Maximum of a list of strings, `none` for the empty list. -/
def maxStrList : List String → Option String
  | [] => none
  | x :: xs => some (xs.foldl strMax x)

/-- Merge of optional maxima. -/
def omax : Option String → Option String → Option String
  | none, o => o
  | some a, none => some a
  | some a, some b => some (strMax a b)

/-- The claim's two-step per-entry timestamp: `created_at` if present, else
`date`, and nothing otherwise. -/
def claimEntryTime (e : RawEntry) : Option String :=
  match e.created_at with
  | some t => some t
  | none => e.date

/-- The claim's reading of a user's last-activity timestamps for a project:
only the two-step fallback, an entry with neither field contributing
nothing. -/
def claimTwoStepTimes (user : String) (files : List TimeFile) (pid : String) :
    List String :=
  ((scannedEntries user files).filter fun e =>
    truthyS e.project_id && e.project_id == some pid).filterMap claimEntryTime

/-! ## Report loading (reports screen)

`ReportsScreen._load_data` parses each time file's stem with
`stem.rsplit('_', 1)` and `datetime.strptime(date_str, "%Y-%m-%d")`, filters
on the file date (inclusive) and on the owning user, and collects entries.
Dates are `(year, month, day)` triples ordered lexicographically, exactly
how Python compares `date` objects.  `parseDateChars` reproduces
`strptime("%Y-%m-%d")`: exactly four year digits, one or two month digits
in 1..12, one or two day digits valid for the (leap-aware) month, and
nothing left over. -/

abbrev Date := Nat × Nat × Nat

def dateLtB : Date → Date → Bool
  | (y1, m1, d1), (y2, m2, d2) =>
    decide (y1 < y2) ||
      (decide (y1 = y2) &&
        (decide (m1 < m2) || (decide (m1 = m2) && decide (d1 < d2))))

def dateLeB (a b : Date) : Bool := dateLtB a b || decide (a = b)

def dv (c : Char) : Nat := c.toNat - '0'.toNat

def parse4Y : List Char → Option (Nat × List Char)
  | a :: b :: c :: d :: rest =>
    if a.isDigit ∧ b.isDigit ∧ c.isDigit ∧ d.isDigit then
      some (((dv a * 10 + dv b) * 10 + dv c) * 10 + dv d, rest)
    else none
  | _ => none

def parseMonth : List Char → Option (Nat × List Char)
  | [] => none
  | c1 :: rest1 =>
    match rest1 with
    | c2 :: rest2 =>
      if c1 = '1' ∧ '0' ≤ c2 ∧ c2 ≤ '2' then some (10 + dv c2, rest2)
      else if c1 = '0' ∧ '1' ≤ c2 ∧ c2 ≤ '9' then some (dv c2, rest2)
      else if '1' ≤ c1 ∧ c1 ≤ '9' then some (dv c1, rest1)
      else none
    | [] => if '1' ≤ c1 ∧ c1 ≤ '9' then some (dv c1, []) else none

def parseDay : List Char → Option (Nat × List Char)
  | [] => none
  | c1 :: rest1 =>
    match rest1 with
    | c2 :: rest2 =>
      if c1 = '3' ∧ (c2 = '0' ∨ c2 = '1') then some (30 + dv c2, rest2)
      else if (c1 = '1' ∨ c1 = '2') ∧ c2.isDigit then
        some (dv c1 * 10 + dv c2, rest2)
      else if c1 = '0' ∧ '1' ≤ c2 ∧ c2 ≤ '9' then some (dv c2, rest2)
      else if '1' ≤ c1 ∧ c1 ≤ '9' then some (dv c1, rest1)
      else none
    | [] => if '1' ≤ c1 ∧ c1 ≤ '9' then some (dv c1, []) else none

def isLeapYear (y : Nat) : Bool :=
  y % 4 == 0 && (y % 100 != 0 || y % 400 == 0)

def daysInMonth (y m : Nat) : Nat :=
  if m = 2 then (if isLeapYear y then 29 else 28)
  else if m = 4 ∨ m = 6 ∨ m = 9 ∨ m = 11 then 30
  else 31

def parseDateChars (l : List Char) : Option Date :=
  match parse4Y l with
  | some (y, '-' :: r1) =>
    match parseMonth r1 with
    | some (m, '-' :: r2) =>
      match parseDay r2 with
      | some (d, []) =>
        if 1 ≤ y ∧ d ≤ daysInMonth y m then some (y, m, d) else none
      | _ => none
    | _ => none
  | _ => none

/-- `filename.rsplit('_', 1)`: split at the last underscore; `none` when
there is no underscore (then `len(parts) != 2` and the file is skipped). -/
def rsplitLastAux : List Char → Option (List Char × List Char)
  | [] => none
  | c :: rest =>
    match rsplitLastAux rest with
    | some (a, b) => some (c :: a, b)
    | none => if c = '_' then some ([], rest) else none

/-- Owning user and file date of a time file, parsed from the filename
stem. -/
def parseStem (stem : String) : Option (String × Date) :=
  match rsplitLastAux stem.data with
  | some (u, ds) =>
    match parseDateChars ds with
    | some d => some (String.mk u, d)
    | none => none
  | none => none

/-- The per-file body of `ReportsScreen._load_data`: skip a stem with no
underscore or an unparseable date, skip file dates outside
`[fromD, toD]`, skip other users when the filter is "me", skip files that
fail to load, and otherwise append the file's entries. -/
def loadStep (currentUser : String) (onlyMe : Bool) (fromD toD : Date)
    (acc : List RawEntry) (f : TimeFile) : List RawEntry :=
  match parseStem f.stem with
  | none => acc
  | some (fileUser, fileDate) =>
    if dateLtB fileDate fromD || dateLtB toD fileDate then acc
    else if onlyMe && fileUser != currentUser then acc
    else
      match f.content with
      | none => acc
      | some es => acc ++ es

/-- `ReportsScreen._load_data`: the entries collected for the report. -/
def reportEntries (currentUser : String) (onlyMe : Bool) (fromD toD : Date)
    (files : List TimeFile) : List RawEntry :=
  files.foldl (loadStep currentUser onlyMe fromD toD) []

/-- The claim's per-file filter: keep a file exactly when its
filename-derived date lies in `[fromD, toD]` inclusive and its
filename-derived user matches the filter. -/
def specKeepFile (currentUser : String) (onlyMe : Bool) (fromD toD : Date)
    (stem : String) : Bool :=
  match parseStem stem with
  | some (u, d) =>
    dateLeB fromD d && dateLeB d toD && (!onlyMe || u == currentUser)
  | none => false

/-- The claim's reading of the report contents: the entries of exactly the
kept files. -/
def specReportEntries (currentUser : String) (onlyMe : Bool)
    (fromD toD : Date) (files : List TimeFile) : List RawEntry :=
  (files.filter fun f => specKeepFile currentUser onlyMe fromD toD f.stem).flatMap
    fun f => f.content.getD []

/-- `ReportsScreen._update_summary` total: sum of per-entry hours (with the
legacy `duration_minutes // 60` fallback) over the collected entries. -/
def totalHoursOf (es : List RawEntry) : Int := (es.map entryHours).sum

/-! ## Report ratios (reports screen)

`_update_summary` collects `set(e.get('project_id') for e in entries)`
(modelled as first-seen-order deduplication — the average below does not
depend on the iteration order of the Python set), computes
`project_hours / target_hours` only for cached projects with
`target_hours > 0`, and renders the average-ratio card as "—" when no
ratio was computed.  Ratios are modelled in `ℚ`; `target_hours` is modelled
as an integer JSON value (a non-numeric value there would raise in the
Python comparison and is outside the model). -/

def dedupFirst {α : Type} [DecidableEq α] (l : List α) : List α :=
  l.foldl (fun acc x => if x ∈ acc then acc else acc ++ [x]) []

def entryPids (es : List RawEntry) : List (Option String) :=
  dedupFirst (es.map (·.project_id))

/-- Hours for one project id over the collected entries
(`if e.get('project_id') == pid`). -/
def projectHoursFor (es : List RawEntry) (pid : Option String) : Int :=
  ((es.filter fun e => e.project_id == pid).map entryHours).sum

/-- The ratio contributed by one element of the project-id set: present
exactly when the id is a cached project with a positive target. -/
def ratioContrib (es : List RawEntry) (cache : List (String × Project))
    (pid : Option String) : Option ℚ :=
  match pid with
  | none => none
  | some s =>
    match alookup cache s with
    | none => none
    | some p =>
      match p.target_hours with
      | .vint t =>
        if 0 < t then some ((projectHoursFor es (some s) : ℚ) / (t : ℚ))
        else none
      | _ => none

def ratioListOf (es : List RawEntry) (cache : List (String × Project)) :
    List ℚ :=
  (entryPids es).filterMap (ratioContrib es cache)

/-- The average-ratio summary card: `none` models the "—" marker rendered
when no ratio was computed (`f"{avg_ratio:.2f}" if ratios else "—"`). -/
def avgRatioMarker (es : List RawEntry) (cache : List (String × Project)) :
    Option ℚ :=
  if (ratioListOf es cache).isEmpty then none
  else some ((ratioListOf es cache).sum / ((ratioListOf es cache).length : ℚ))

/-- The ratio cell of the By Project table (`_update_by_project`): "—"
(`none`) unless the project's target is positive. -/
def projectRatioCell (hours : Int) (target : Value) : Option ℚ :=
  match target with
  | .vint t => if 0 < t then some ((hours : ℚ) / (t : ℚ)) else none
  | _ => none

/-! ## Project store -/

/-- Decode of one file of the projects directory, `none` when the file is
corrupted JSON, when `Project(**data)` raises, or when the decoded id is
unhashable (the `self._projects[project.id] = project` assignment raises,
still inside the per-file `try`). -/
def loadedOk (f : Option (List (String × Value))) : Option Project :=
  match f with
  | none => none
  | some doc =>
    match decodeProject doc with
    | none => none
    | some p => if p.id.hashable then some p else none

def loadSuccesses (files : List (Option (List (String × Value)))) :
    List Project :=
  files.filterMap loadedOk

/-- One file step of `load_projects`: a failing file produces one printed
warning; a successful decode is inserted into the dict keyed by the
project's internal `id`. -/
def loadStepP (st : List (Value × Project) × Nat)
    (f : Option (List (String × Value))) : List (Value × Project) × Nat :=
  match loadedOk f with
  | none => (st.1, st.2 + 1)
  | some p => (aset st.1 p.id p, st.2)

/-- `DataService.load_projects`: fold over the files of the projects
directory, building the id-keyed in-memory dict and counting the per-file
warnings printed for files that fail. -/
def loadProjects (files : List (Option (List (String × Value)))) :
    List (Value × Project) × Nat :=
  files.foldl loadStepP ([], 0)

/-- `save_project` stamps `modified_at = now` and `modified_by = actor`
before writing. -/
def stampProject (p : Project) (now actor : Value) : Project :=
  { p with modified_at := now, modified_by := actor }

/-- `Project.get_file_id` (app/models.py): the filename stem is the
external `project_id` if truthy, else the legacy `course_id` if truthy,
else the internal `id`. -/
def getFileId (p : Project) : Value :=
  if p.project_id.truthy then p.project_id
  else if p.course_id.truthy then p.course_id
  else p.id

/-- The cache update of `save_project`
(`self._projects[project.id] = project`, its last statement): keyed by the
internal id, never by `get_file_id`.  An unhashable id raises there,
leaving the cache unchanged. -/
def saveProjectCache (cache : List (Value × Project)) (p : Project)
    (now actor : Value) : List (Value × Project) :=
  if (stampProject p now actor).id.hashable then
    aset cache (stampProject p now actor).id (stampProject p now actor)
  else cache

/-! ## Starred-projects preference store -/

/-- The shared folder as a map from path to parsed JSON content. -/
def starredFilePath (root user : String) : String :=
  root ++ "/" ++ user ++ "_starred.json"

/-- `get_starred_projects`: empty set when the file is absent; otherwise
`set(data.get('starred', []))`. -/
def getStarredList (fs : String → Option Value) (root user : String) :
    List Value :=
  match fs (starredFilePath root user) with
  | none => []
  | some (.vobj fields) =>
    match getV fields.toPairs "starred" (.vlist .nil) with
    | .vlist xs => xs.toList
    | _ => []
  | some _ => []

/-- `set_project_starred`: read-modify-write of the current user's own
starred file and of no other path.  The Python `set` is modelled as a
deduplicated list (its iteration order is irrelevant here). -/
def setStarred (fs : String → Option Value) (root user pid : String)
    (starred : Bool) : String → Option Value :=
  let cur := dedupFirst (getStarredList fs root user)
  let next :=
    if starred then
      (if Value.vstr pid ∈ cur then cur else cur ++ [Value.vstr pid])
    else cur.filter fun v => v ≠ Value.vstr pid
  fun q =>
    if q = starredFilePath root user then
      some (.vobj (VObj.ofPairs [("starred", .vlist (VList.ofList next))]))
    else fs q

/-! ## Concrete data used by witnesses and counterexamples -/

/-- The aggregation example of the spec: `alice_2024-01-01.json` with one
3-hour entry and `bob_2024-01-01.json` with one 2-hour entry, both on
project `P1`. -/
def c3ExampleFiles : List TimeFile :=
  [⟨"alice_2024-01-01", some [{ project_id := some "P1", hours := some 3 }]⟩,
   ⟨"bob_2024-01-01", some [{ project_id := some "P1", hours := some 2 }]⟩]

/-- The report-window example of the spec: one user with 3 hours on
2024-01-01 and 4 hours on 2024-01-10. -/
def c4ExampleFiles : List TimeFile :=
  [⟨"u_2024-01-01", some [{ project_id := some "P1", hours := some 3 }]⟩,
   ⟨"u_2024-01-10", some [{ project_id := some "P1", hours := some 4 }]⟩]

/-- A daily file of user `u` with a single entry that has no `created_at`
and no `date` but a legacy `end_time`. -/
def c5ExampleFiles : List TimeFile :=
  [⟨"u_2024-06-01",
    some [{ project_id := some "P", end_time := some "2024-06-01T10:00:00" }]⟩]

/-- A projects cache holding one project whose `target_hours` is 0. -/
def c6ExampleCache : List (String × Project) :=
  [("P0", { id := .vstr "P0", name := .vstr "Zero Target",
            target_hours := .vint 0 })]

/-- Report entries touching only the zero-target project `P0`. -/
def c6ExampleEntries : List RawEntry :=
  [{ project_id := some "P0", hours := some 4 }]

/-- Three project files of which exactly the middle one is corrupted. -/
def c8ExampleFiles : List (Option (List (String × Value))) :=
  [some [("id", .vstr "A"), ("name", .vstr "Alpha")],
   none,
   some [("id", .vstr "B"), ("name", .vstr "Beta")]]

/-- A shared folder in which user `bob` has a starred file. -/
def c9ExampleFs : String → Option Value := fun p =>
  if p = "root/bob_starred.json" then
    some (.vobj (.cons "starred" (.vlist (.cons (.vstr "P9") .nil)) .nil))
  else none

/-- A projects cache already keyed by internal id. -/
def c10ExampleCache : List (Value × Project) :=
  [(Value.vstr "A", { id := .vstr "A", name := .vstr "Alpha" })]

/-- A project whose filename stem (`get_file_id`) is its external id
`EXT-9`, different from its internal id `X`. -/
def c10ExampleProject : Project :=
  { id := .vstr "X", name := .vstr "Xen", project_id := .vstr "EXT-9" }

/-! ## Helper lemmas -/

theorem VList.toList_ofList (l : List Value) : (VList.ofList l).toList = l := by
  induction l with
  | nil => rfl
  | cons x xs ih => simp [VList.ofList, VList.toList, ih]

theorem VObj.toPairs_ofPairs (l : List (String × Value)) :
    (VObj.ofPairs l).toPairs = l := by
  induction l with
  | nil => rfl
  | cons kv rest ih =>
    cases kv
    simp [VObj.ofPairs, VObj.toPairs, ih]

theorem alookup_aset_self {α β : Type} [DecidableEq α]
    (l : List (α × β)) (k : α) (v : β) : alookup (aset l k v) k = some v := by
  induction l with
  | nil => simp [aset, alookup]
  | cons kv rest ih =>
    obtain ⟨k', v'⟩ := kv
    by_cases h : k' = k
    · simp [aset, h, alookup]
    · simp [aset, h, alookup, ih]

theorem alookup_aset_ne {α β : Type} [DecidableEq α]
    (l : List (α × β)) (k : α) (v : β) (k' : α) (h : k ≠ k') :
    alookup (aset l k v) k' = alookup l k' := by
  induction l with
  | nil => simp [aset, alookup, h]
  | cons kv rest ih =>
    obtain ⟨k0, v0⟩ := kv
    by_cases h0 : k0 = k
    · subst h0
      simp [aset, alookup, h]
    · simp only [aset, if_neg h0]
      by_cases h1 : k0 = k'
      · simp [alookup, h1]
      · simp [alookup, h1, ih]

theorem mem_aset {α β : Type} [DecidableEq α]
    {l : List (α × β)} {k : α} {v : β} {kv : α × β}
    (h : kv ∈ aset l k v) : kv ∈ l ∨ kv = (k, v) := by
  induction l with
  | nil => simpa [aset] using h
  | cons kv0 rest ih =>
    obtain ⟨k0, v0⟩ := kv0
    by_cases h0 : k0 = k
    · simp only [aset, if_pos h0] at h
      rcases List.mem_cons.mp h with h1 | h1
      · exact Or.inr h1
      · exact Or.inl (List.mem_cons_of_mem _ h1)
    · simp only [aset, if_neg h0] at h
      rcases List.mem_cons.mp h with h1 | h1
      · exact Or.inl (h1 ▸ List.mem_cons_self _ _)
      · rcases ih h1 with h2 | h2
        · exact Or.inl (List.mem_cons_of_mem _ h2)
        · exact Or.inr h2

theorem mem_of_alookup {α β : Type} [DecidableEq α]
    {l : List (α × β)} {k : α} {v : β}
    (h : alookup l k = some v) : (k, v) ∈ l := by
  induction l with
  | nil => simp [alookup] at h
  | cons kv0 rest ih =>
    obtain ⟨k0, v0⟩ := kv0
    by_cases h0 : k0 = k
    · subst h0
      rw [alookup, if_pos rfl] at h
      injection h with h1
      subst h1
      exact List.mem_cons_self _ _
    · rw [alookup, if_neg h0] at h
      exact List.mem_cons_of_mem _ (ih h)

theorem aset_of_alookup_none {α β : Type} [DecidableEq α]
    {l : List (α × β)} {k : α} (v : β)
    (h : alookup l k = none) : aset l k v = l ++ [(k, v)] := by
  induction l with
  | nil => simp [aset]
  | cons kv0 rest ih =>
    obtain ⟨k0, v0⟩ := kv0
    by_cases h0 : k0 = k
    · simp [alookup, h0] at h
    · simp only [alookup, if_neg h0] at h
      simp [aset, h0, ih h]

theorem decodeProject_encodeProject (p : Project) :
    decodeProject (encodeProject p) = some p := rfl

theorem decodeTimeEntry_encodeTimeEntry (t : TimeEntry) :
    decodeTimeEntry (encodeTimeEntry t) = some t := rfl

theorem decodeEntries_map_encode (es : List TimeEntry) :
    optionMapList decodeEntryVal
      (es.map fun e => Value.vobj (VObj.ofPairs (encodeTimeEntry e)))
      = some es := by
  induction es with
  | nil => rfl
  | cons e rest ih =>
    simp only [List.map_cons, optionMapList, decodeEntryVal,
      VObj.toPairs_ofPairs, decodeTimeEntry_encodeTimeEntry, ih]

theorem decodeDailyTimeFile_encodeDailyTimeFile (d : DailyTimeFile) :
    decodeDailyTimeFile (encodeDailyTimeFile d) = some d := by
  have h1 : (VList.ofList (d.entries.map fun e =>
      Value.vobj (VObj.ofPairs (encodeTimeEntry e)))).toList
      = d.entries.map fun e =>
          Value.vobj (VObj.ofPairs (encodeTimeEntry e)) :=
    VList.toList_ofList _
  unfold decodeDailyTimeFile
  simp [encodeDailyTimeFile, getV, alookup, pyIterate, h1,
    decodeEntries_map_encode]

theorem optionMapList_isSome {α β : Type} (f : α → Option β) (l : List α) :
    (optionMapList f l).isSome = l.all fun x => (f x).isSome := by
  induction l with
  | nil => rfl
  | cons x xs ih =>
    cases hf : f x with
    | none => simp [optionMapList, hf]
    | some y =>
      cases hm : optionMapList f xs with
      | none =>
        rw [hm] at ih
        simp [optionMapList, hf, hm, ← ih]
      | some ys =>
        rw [hm] at ih
        simp [optionMapList, hf, hm, ← ih]

theorem sum_if_filter {α : Type} (p : α → Bool) (g : α → Int) (l : List α) :
    ((l.filter p).map g).sum = (l.map fun x => if p x then g x else 0).sum := by
  induction l with
  | nil => rfl
  | cons x xs ih =>
    by_cases h : p x <;> simp [List.filter_cons, h, ih]

theorem foldl_entry_total (pid : String) (es : List RawEntry) (a : Int) :
    es.foldl (fun a e => if e.project_id == some pid then a + entryHours e
        else a) a
      = a + (es.map fun e => if e.project_id == some pid then entryHours e
          else 0).sum := by
  induction es generalizing a with
  | nil => simp
  | cons e rest ih =>
    rw [List.foldl_cons, ih]
    by_cases h : e.project_id == some pid
    · simp only [h, if_true, List.map_cons, List.sum_cons]
      ring
    · simp only [h, List.map_cons, List.sum_cons]
      simp at h
      simp [h]

theorem getProjectTotalHours_eq_sum (pid : String) (files : List TimeFile) :
    getProjectTotalHours pid files
      = (files.map fun f => ((f.content.getD []).map fun e =>
          if e.project_id == some pid then entryHours e else 0).sum).sum := by
  unfold getProjectTotalHours
  suffices h : ∀ a : Int,
      files.foldl (fun acc f =>
        match f.content with
        | none => acc
        | some es => es.foldl (fun a e =>
            if e.project_id == some pid then a + entryHours e else a) acc) a
      = a + (files.map fun f => ((f.content.getD []).map fun e =>
          if e.project_id == some pid then entryHours e else 0).sum).sum by
    simpa using h 0
  induction files with
  | nil => simp
  | cons f rest ih =>
    intro a
    rw [List.foldl_cons]
    cases hc : f.content with
    | none =>
      simp only [hc]
      rw [ih]
      simp [hc]
    | some es =>
      simp only [hc]
      rw [foldl_entry_total, ih]
      simp only [hc, Option.getD_some, List.map_cons, List.sum_cons]
      ring

/-! ## Claim C1 -/

/-- C1 (counterexample): saving a project does not strip the legacy flat
fields — encoding the project `{id: "PRJ-1", name: "Demo"}` produces a
document that does contain the legacy key `campus`, contradicting the claim
that the saved JSON document contains no legacy flat fields. -/
theorem C1_counterexample :
    "campus" ∈ (encodeProject
      { id := Value.vstr "PRJ-1", name := Value.vstr "Demo" }).map
        Prod.fst := by decide

/-- C1 (amended): encoding a project for save emits every dataclass field —
the current-schema fields and the ten legacy flat fields `campus`, `offer`,
`sub_offer`, `course_id`, `effort_type`, `course_type`,
`course_duration_minutes`, `lpo`, `sme`, `lxo` — so a save round-trips the
legacy fields instead of migrating the record forward. -/
theorem C1_all_fields_emitted (p : Project) :
    (encodeProject p).map Prod.fst = projectFieldKeys := rfl

/-! ## Claim C2 -/

/-- C2 (counterexample): decoding raises in cases the claim excludes — a
project document with the required identity field present but an unknown
extra key `zkey` fails to decode, and so does a document `{id: "x"}` that
merely lacks the default-less field `name`. -/
theorem C2_counterexample :
    decodeProject [("id", .vstr "x"), ("name", .vstr "y"), ("zkey", .vnull)]
        = none
    ∧ decodeProject [("id", .vstr "x")] = none := ⟨rfl, rfl⟩

/-- C2 (amended): decoding an entity raises exactly when a document key is
not a dataclass field name or a default-less constructor field is absent —
for `Project` both `id` and `name`; for `TimeEntry` the five fields `id`,
`project_id`, `work_type`, `hours`, `date`; for `DailyTimeFile` a missing
`user_id` or `date`, a non-iterable `entries` value (`null`, boolean or
number), or an iterated item of `entries` that fails to unpack into a
`TimeEntry` (a list yields its elements, a string its characters, an
object its keys).  A document lacking only optional (defaulted) fields
always decodes; in particular a daily file whose `entries` is `""`
decodes with an empty entry list, while `entries: 5` raises. -/
theorem C2_decode_error_conditions :
    (∀ doc : List (String × Value), decodeProject doc = none ↔
      ¬((doc.all fun kv => projectFieldKeys.contains kv.1) = true
        ∧ hasKeyB doc "id" = true ∧ hasKeyB doc "name" = true))
    ∧ (∀ doc : List (String × Value), decodeTimeEntry doc = none ↔
      ¬((doc.all fun kv => timeEntryFieldKeys.contains kv.1) = true
        ∧ hasKeyB doc "id" = true ∧ hasKeyB doc "project_id" = true
        ∧ hasKeyB doc "work_type" = true ∧ hasKeyB doc "hours" = true
        ∧ hasKeyB doc "date" = true))
    ∧ (∀ doc : List (String × Value), decodeDailyTimeFile doc = none ↔
      ¬(hasKeyB doc "user_id" = true ∧ hasKeyB doc "date" = true
        ∧ dailyEntriesOkB doc = true))
    ∧ (∀ a b : Value,
        (decodeProject [("id", a), ("name", b)]).isSome = true)
    ∧ (∀ a b : Value,
        decodeDailyTimeFile
          [("user_id", a), ("date", b), ("entries", .vstr "")]
          = some { user_id := a, date := b, entries := [] })
    ∧ decodeDailyTimeFile
        [("user_id", .vstr "u"), ("date", .vstr "d"), ("entries", .vint 5)]
        = none := by
  refine ⟨fun doc => ?_, fun doc => ?_, fun doc => ?_, fun a b => rfl,
    fun a b => rfl, rfl⟩
  · unfold decodeProject
    by_cases h : ((doc.all fun kv => projectFieldKeys.contains kv.1)
        && hasKeyB doc "id" && hasKeyB doc "name") = true
    · rw [if_pos h]
      rw [Bool.and_eq_true, Bool.and_eq_true] at h
      exact iff_of_false (by simp) (not_not.mpr ⟨h.1.1, h.1.2, h.2⟩)
    · rw [if_neg h]
      refine iff_of_true rfl fun hc => h ?_
      rw [Bool.and_eq_true, Bool.and_eq_true]
      exact ⟨⟨hc.1, hc.2.1⟩, hc.2.2⟩
  · unfold decodeTimeEntry
    by_cases h : ((doc.all fun kv => timeEntryFieldKeys.contains kv.1)
        && hasKeyB doc "id" && hasKeyB doc "project_id"
        && hasKeyB doc "work_type" && hasKeyB doc "hours"
        && hasKeyB doc "date") = true
    · rw [if_pos h]
      rw [Bool.and_eq_true, Bool.and_eq_true, Bool.and_eq_true,
        Bool.and_eq_true, Bool.and_eq_true] at h
      exact iff_of_false (by simp)
        (not_not.mpr ⟨h.1.1.1.1.1, h.1.1.1.1.2, h.1.1.1.2, h.1.1.2, h.1.2,
          h.2⟩)
    · rw [if_neg h]
      refine iff_of_true rfl fun hc => h ?_
      rw [Bool.and_eq_true, Bool.and_eq_true, Bool.and_eq_true,
        Bool.and_eq_true, Bool.and_eq_true]
      exact ⟨⟨⟨⟨⟨hc.1, hc.2.1⟩, hc.2.2.1⟩, hc.2.2.2.1⟩, hc.2.2.2.2.1⟩,
        hc.2.2.2.2.2⟩
  · unfold decodeDailyTimeFile dailyEntriesOkB hasKeyB
    cases hit : pyIterate (getV doc "entries" (.vlist .nil)) with
    | none => simp
    | some items =>
      have hiff := optionMapList_isSome decodeEntryVal items
      cases hm : optionMapList decodeEntryVal items with
      | none =>
        rw [hm] at hiff
        have hall : (items.all fun x => (decodeEntryVal x).isSome) = false :=
          hiff.symm
        exact iff_of_true (by simp [hm]) (by simp [hall])
      | some es =>
        rw [hm] at hiff
        have hall : (items.all fun x => (decodeEntryVal x).isSome) = true :=
          hiff.symm
        cases hu : alookup doc "user_id" with
        | none => simp [hm, hu]
        | some uid =>
          cases hd : alookup doc "date" with
          | none => simp [hm, hu, hd]
          | some dt => exact iff_of_false (by simp [hm, hu, hd]) (by simp [hall])

/-! ## Claim C3 -/

/-- C3: for entries carrying the current-schema `hours` field,
`get_project_total_hours` equals the sum of `hours` over every entry, in
every user's daily file, whose `project_id` equals the queried project. -/
theorem C3_total_hours_all_users (pid : String) (files : List TimeFile)
    (h : ∀ f ∈ files, ∀ e ∈ f.content.getD [],
        e.project_id = some pid → e.hours.isSome = true) :
    getProjectTotalHours pid files = specProjectTotalHours pid files := by
  rw [getProjectTotalHours_eq_sum]
  unfold specProjectTotalHours
  apply congrArg List.sum
  apply List.map_congr_left
  intro f hf
  rw [sum_if_filter]
  apply congrArg List.sum
  apply List.map_congr_left
  intro e he
  by_cases hp : (e.project_id == some pid) = true
  · have hs := h f hf e he (by simpa using hp)
    rw [if_pos hp, if_pos hp]
    cases hh : e.hours with
    | some v => simp [entryHours, hh]
    | none => rw [hh] at hs; simp at hs
  · rw [if_neg hp, if_neg hp]

/-- C3 (witness): on the spec's example — alice logs 3 hours and bob logs
2 hours on `P1` — the hypothesis holds, the code total equals the spec
total, and both are 5. -/
theorem C3_total_hours_all_users_witness :
    (∀ f ∈ c3ExampleFiles, ∀ e ∈ f.content.getD [],
        e.project_id = some "P1" → e.hours.isSome = true)
    ∧ getProjectTotalHours "P1" c3ExampleFiles
        = specProjectTotalHours "P1" c3ExampleFiles
    ∧ getProjectTotalHours "P1" c3ExampleFiles = 5 :=
  ⟨by decide, C3_total_hours_all_users "P1" c3ExampleFiles (by decide),
   by decide⟩

/-! ## Claim C7 -/

/-- C7: for every entity kind — `Project`, `TimeEntry`, `DailyTimeFile` —
decoding the document produced by encoding a value yields that value. -/
theorem C7_codec_round_trip :
    (∀ p : Project, decodeProject (encodeProject p) = some p)
    ∧ (∀ t : TimeEntry, decodeTimeEntry (encodeTimeEntry t) = some t)
    ∧ (∀ d : DailyTimeFile,
        decodeDailyTimeFile (encodeDailyTimeFile d) = some d) :=
  ⟨decodeProject_encodeProject, decodeTimeEntry_encodeTimeEntry,
   decodeDailyTimeFile_encodeDailyTimeFile⟩

/-! ## Claim C5 -/

theorem strMax_eq_max (a b : String) : strMax a b = max a b := by
  unfold strMax
  rcases lt_trichotomy a b with h | h | h
  · rw [if_pos h, max_eq_right h.le]
  · subst h
    simp
  · rw [if_neg (not_lt.mpr h.le), max_eq_left h.le]

theorem strMax_assoc (a b c : String) :
    strMax (strMax a b) c = strMax a (strMax b c) := by
  simp [strMax_eq_max, max_assoc]

theorem foldl_strMax_acc (us : List String) (t u : String) :
    us.foldl strMax (strMax t u) = strMax t (us.foldl strMax u) := by
  induction us generalizing u with
  | nil => rfl
  | cons v vs ih =>
    rw [List.foldl_cons, List.foldl_cons, strMax_assoc]
    exact ih (strMax u v)

theorem maxStrList_cons (t : String) (ts : List String) :
    maxStrList (t :: ts) = omax (some t) (maxStrList ts) := by
  cases ts with
  | nil => rfl
  | cons u us =>
    show some (us.foldl strMax (strMax t u)) = _
    rw [foldl_strMax_acc]
    rfl

theorem omax_none_right (a : Option String) : omax a none = a := by
  cases a <;> rfl

theorem omax_assoc (a b c : Option String) :
    omax (omax a b) c = omax a (omax b c) := by
  cases a <;> cases b <;> cases c <;> simp [omax, strMax_assoc]

theorem maxStrList_append (l1 l2 : List String) :
    maxStrList (l1 ++ l2) = omax (maxStrList l1) (maxStrList l2) := by
  induction l1 with
  | nil => rfl
  | cons t ts ih =>
    rw [List.cons_append, maxStrList_cons, ih, maxStrList_cons, omax_assoc]

theorem alookup_updActivity_match (acc : List (String × String))
    (e : RawEntry) (pid : String) (ht : truthyS e.project_id = true)
    (hp : e.project_id = some pid) :
    alookup (updActivity acc e) pid
      = omax (alookup acc pid) (some (entryTime e)) := by
  unfold updActivity
  rw [if_pos ht]
  simp only [hp, Option.getD_some]
  cases hl : alookup acc pid with
  | none => rw [alookup_aset_self]; rfl
  | some cur =>
    dsimp only
    by_cases hc : cur < entryTime e
    · rw [if_pos hc, alookup_aset_self]
      simp [omax, strMax, hc]
    · rw [if_neg hc, hl]
      simp [omax, strMax, hc]

theorem alookup_updActivity_other (acc : List (String × String))
    (e : RawEntry) (pid : String)
    (h : truthyS e.project_id = false ∨ e.project_id ≠ some pid) :
    alookup (updActivity acc e) pid = alookup acc pid := by
  unfold updActivity
  by_cases ht : truthyS e.project_id = true
  · rw [if_pos ht]
    have hk : e.project_id.getD "" ≠ pid := by
      cases hpe : e.project_id with
      | none => rw [hpe] at ht; simp [truthyS] at ht
      | some s =>
        rcases h with h | h
        · rw [hpe] at ht h; rw [ht] at h; cases h
        · simp only [hpe, Option.getD_some]
          intro hs
          exact h (by rw [hpe, hs])
    cases hl : alookup acc (e.project_id.getD "") with
    | none => rw [alookup_aset_ne _ _ _ _ hk]
    | some cur =>
      dsimp only
      by_cases hc : cur < entryTime e
      · rw [if_pos hc, alookup_aset_ne _ _ _ _ hk]
      · rw [if_neg hc]
  · rw [if_neg ht]

theorem alookup_foldl_updActivity (es : List RawEntry) (pid : String) :
    ∀ acc, alookup (es.foldl updActivity acc) pid
      = omax (alookup acc pid)
          (maxStrList ((es.filter fun e =>
            truthyS e.project_id && e.project_id == some pid).map
              entryTime)) := by
  induction es with
  | nil =>
    intro acc
    simp [maxStrList, omax_none_right]
  | cons e rest ih =>
    intro acc
    rw [List.foldl_cons, List.filter_cons]
    by_cases hm : (truthyS e.project_id && (e.project_id == some pid)) = true
    · have hm' := hm
      rw [Bool.and_eq_true] at hm'
      have hp : e.project_id = some pid := by simpa using hm'.2
      rw [ih, alookup_updActivity_match acc e pid hm'.1 hp, if_pos hm,
        List.map_cons, maxStrList_cons, omax_assoc]
    · have hor : truthyS e.project_id = false ∨ e.project_id ≠ some pid := by
        by_cases ht : truthyS e.project_id = true
        · right
          intro hp
          apply hm
          rw [Bool.and_eq_true]
          exact ⟨ht, by simpa using hp⟩
        · left
          exact eq_false_of_ne_true ht
      rw [ih, alookup_updActivity_other acc e pid hor, if_neg hm]

/-- C5 (amended): `user_last_activity` scans only the given user's daily
files and maps each truthy `project_id` to the maximum per-entry timestamp,
where the timestamp is `created_at` if truthy, else `date` if truthy, else
the legacy `end_time` field (defaulting to the empty string) — a three-step
fallback whose last source the claim omits. -/
theorem C5_last_activity_three_step (user : String) (files : List TimeFile)
    (pid : String) :
    alookup (userLastActivity user files) pid
      = maxStrList (activityTimes user files pid) := by
  unfold userLastActivity activityTimes scannedEntries
  generalize (files.filter fun f => strHasPrefix f.stem (user ++ "_")) = fls
  suffices h : ∀ acc, alookup (fls.foldl
      (fun acc f =>
        match f.content with
        | none => acc
        | some es => es.foldl updActivity acc) acc) pid
      = omax (alookup acc pid)
          (maxStrList (((fls.flatMap fun f => f.content.getD []).filter
            fun e => truthyS e.project_id && e.project_id == some pid).map
              entryTime)) by
    simpa [alookup] using h []
  induction fls with
  | nil =>
    intro acc
    simp [maxStrList, omax_none_right]
  | cons f rest ih =>
    intro acc
    rw [List.foldl_cons, List.flatMap_cons, List.filter_append,
      List.map_append, maxStrList_append]
    cases hc : f.content with
    | none =>
      simp only [hc, Option.getD_none, List.filter_nil, List.map_nil]
      rw [ih]
      rfl
    | some es =>
      simp only [hc, Option.getD_some]
      rw [ih, alookup_foldl_updActivity es pid acc, omax_assoc]

/-- C5 (counterexample): with a single entry that has no `created_at` and
no `date` but a legacy `end_time`, the code maps project `P` to the
`end_time` value, while the claim's two-step fallback (`created_at`, else
`date`, else nothing) yields no timestamp at all — the code has a third
fallback source the claim rules out. -/
theorem C5_counterexample :
    alookup (userLastActivity "u" c5ExampleFiles) "P"
        = some "2024-06-01T10:00:00"
    ∧ maxStrList (claimTwoStepTimes "u" c5ExampleFiles "P") = none :=
  ⟨by decide, by decide⟩

/-! ## Claim C4 -/

theorem dateLeB_iff_not_lt (a b : Date) :
    dateLeB a b = true ↔ ¬(dateLtB b a = true) := by
  obtain ⟨y1, m1, d1⟩ := a
  obtain ⟨y2, m2, d2⟩ := b
  simp [dateLtB, dateLeB, Prod.ext_iff]
  omega

theorem loadStep_eq_spec (cu : String) (onlyMe : Bool) (fromD toD : Date)
    (f : TimeFile) (acc : List RawEntry) :
    loadStep cu onlyMe fromD toD acc f
      = acc ++ (if specKeepFile cu onlyMe fromD toD f.stem then
          f.content.getD [] else []) := by
  unfold loadStep specKeepFile
  cases hp : parseStem f.stem with
  | none => simp
  | some ud =>
    obtain ⟨u, d⟩ := ud
    dsimp only
    cases hlt1 : dateLtB d fromD with
    | true =>
      have hle1 : dateLeB fromD d = false := by
        cases hb : dateLeB fromD d
        · rfl
        · exact absurd hlt1 (by simpa using (dateLeB_iff_not_lt fromD d).mp hb)
      simp [hlt1, hle1]
    | false =>
      have hle1 : dateLeB fromD d = true :=
        (dateLeB_iff_not_lt fromD d).mpr (by simp [hlt1])
      cases hlt2 : dateLtB toD d with
      | true =>
        have hle2 : dateLeB d toD = false := by
          cases hb : dateLeB d toD
          · rfl
          · exact absurd hlt2 (by simpa using (dateLeB_iff_not_lt d toD).mp hb)
        simp [hlt1, hlt2, hle1, hle2]
      | false =>
        have hle2 : dateLeB d toD = true :=
          (dateLeB_iff_not_lt d toD).mpr (by simp [hlt2])
        cases honly : onlyMe with
        | false =>
          simp only [hlt1, hlt2, hle1, hle2, honly, Bool.or_false,
            Bool.false_and, Bool.not_false, Bool.true_or, Bool.and_true,
            Bool.true_and, if_false, if_true]
          cases hc : f.content <;> simp
        | true =>
          cases hequ : u == cu with
          | true =>
            have hbne : (u != cu) = false := by simp [bne, hequ]
            simp only [hlt1, hlt2, hle1, hle2, honly, hequ, hbne,
              Bool.or_false, Bool.not_true, Bool.false_or, Bool.and_true,
              Bool.true_and, Bool.and_false, if_false, if_true]
            cases hc : f.content <;> simp
          | false =>
            have hbne : (u != cu) = true := by simp [bne, hequ]
            simp [hlt1, hlt2, hle1, hle2, honly, hequ, hbne]

/-- C4: the report keeps exactly the entries of files whose
filename-derived date lies in the inclusive window and whose
filename-derived user matches the filter (an entry's own `date` field plays
no role), and on the spec's example the totals are 3 for
[2024-01-01, 2024-01-05] and 7 for [2024-01-01, 2024-01-10]. -/
theorem C4_report_window :
    (∀ (cu : String) (onlyMe : Bool) (fromD toD : Date)
        (files : List TimeFile),
        reportEntries cu onlyMe fromD toD files
          = specReportEntries cu onlyMe fromD toD files)
    ∧ totalHoursOf
        (reportEntries "u" false (2024, 1, 1) (2024, 1, 5) c4ExampleFiles)
        = 3
    ∧ totalHoursOf
        (reportEntries "u" false (2024, 1, 1) (2024, 1, 10) c4ExampleFiles)
        = 7 := by
  refine ⟨fun cu onlyMe fromD toD files => ?_, by decide, by decide⟩
  unfold reportEntries specReportEntries
  have h1 : ∀ acc, files.foldl (loadStep cu onlyMe fromD toD) acc
      = acc ++ (files.filter fun f =>
          specKeepFile cu onlyMe fromD toD f.stem).flatMap
            fun f => f.content.getD [] := by
    induction files with
    | nil => intro acc; simp
    | cons f rest ih =>
      intro acc
      rw [List.foldl_cons, loadStep_eq_spec, List.filter_cons]
      by_cases hk : specKeepFile cu onlyMe fromD toD f.stem = true
      · rw [if_pos hk, if_pos hk, List.flatMap_cons, ih]
        simp [List.append_assoc]
      · rw [if_neg hk, if_neg hk]
        simp only [List.append_nil]
        exact ih acc
  simpa using h1 []

/-! ## Claim C6 -/

theorem filterMap_eq_nil_of_none {α β : Type} (f : α → Option β)
    (l : List α) (h : ∀ x ∈ l, f x = none) : l.filterMap f = [] := by
  induction l with
  | nil => rfl
  | cons x xs ih =>
    rw [List.filterMap_cons, h x (List.mem_cons_self _ _)]
    exact ih fun y hy => h y (List.mem_cons_of_mem _ hy)

/-- C6: ratios are computed only for projects with a positive target — a
cached project whose `target_hours` is 0 contributes no element to the
ratio list, a report window touching only such projects renders the
average-ratio card as the undefined marker "—" (no division is performed),
and the By Project ratio cell of a zero-target project is likewise the
undefined marker. -/
theorem C6_undefined_ratio :
    (∀ (es : List RawEntry) (cache : List (String × Project)) (pid : String)
        (p : Project), alookup cache pid = some p →
        p.target_hours = Value.vint 0 →
        ratioContrib es cache (some pid) = none)
    ∧ (∀ (es : List RawEntry) (cache : List (String × Project)),
        (∀ kv ∈ cache, kv.2.target_hours = Value.vint 0) →
        avgRatioMarker es cache = none)
    ∧ (∀ hrs : Int, projectRatioCell hrs (Value.vint 0) = none) := by
  refine ⟨fun es cache pid p hl ht => ?_, fun es cache hall => ?_,
    fun hrs => by simp [projectRatioCell]⟩
  · unfold ratioContrib
    dsimp only
    rw [hl]
    dsimp only
    rw [ht]
    simp
  · have hnil : ratioListOf es cache = [] := by
      unfold ratioListOf
      apply filterMap_eq_nil_of_none
      intro pid _
      cases pid with
      | none => rfl
      | some s =>
        unfold ratioContrib
        dsimp only
        cases hl : alookup cache s with
        | none => simp [hl]
        | some p =>
          have ht : p.target_hours = Value.vint 0 :=
            hall (s, p) (mem_of_alookup hl)
          simp [hl, ht]
    simp [avgRatioMarker, hnil]

/-- C6 (witness): a cache holding only the zero-target project `P0` and a
report window touching only `P0`: the cache satisfies the hypothesis, the
ratio contribution of `P0` is absent, the average-ratio card is the
undefined marker, and so is the By Project ratio cell. -/
theorem C6_undefined_ratio_witness :
    (∀ kv ∈ c6ExampleCache, kv.2.target_hours = Value.vint 0)
    ∧ ratioContrib c6ExampleEntries c6ExampleCache (some "P0") = none
    ∧ avgRatioMarker c6ExampleEntries c6ExampleCache = none
    ∧ projectRatioCell 4 (Value.vint 0) = none :=
  ⟨by decide,
   C6_undefined_ratio.1 c6ExampleEntries c6ExampleCache "P0"
     { id := .vstr "P0", name := .vstr "Zero Target",
       target_hours := .vint 0 } rfl rfl,
   C6_undefined_ratio.2.1 c6ExampleEntries c6ExampleCache (by decide),
   C6_undefined_ratio.2.2 4⟩

/-! ## Claim C8 -/

theorem alookup_append {α β : Type} [DecidableEq α]
    (l1 l2 : List (α × β)) (k : α) :
    alookup (l1 ++ l2) k
      = match alookup l1 k with
        | some v => some v
        | none => alookup l2 k := by
  induction l1 with
  | nil => simp [alookup]
  | cons kv rest ih =>
    obtain ⟨k0, v0⟩ := kv
    by_cases h0 : k0 = k
    · simp [alookup, h0]
    · simp only [List.cons_append, alookup, if_neg h0]
      exact ih

theorem loadProjects_warning_count
    (files : List (Option (List (String × Value)))) :
    ∀ (acc : List (Value × Project)) (w : Nat),
      (files.foldl loadStepP (acc, w)).2
        = w + (files.filter fun f => (loadedOk f).isNone).length := by
  induction files with
  | nil => intro acc w; simp
  | cons f rest ih =>
    intro acc w
    rw [List.foldl_cons, List.filter_cons]
    cases hf : loadedOk f with
    | none =>
      have hstep : loadStepP (acc, w) f = (acc, w + 1) := by
        unfold loadStepP
        rw [hf]
      rw [hstep, ih]
      simp [hf]
      omega
    | some p =>
      have hstep : loadStepP (acc, w) f = (aset acc p.id p, w) := by
        unfold loadStepP
        rw [hf]
      rw [hstep, ih]
      simp [hf]

theorem loadProjects_dict (files : List (Option (List (String × Value)))) :
    ∀ (acc : List (Value × Project)) (w : Nat),
      (∀ p ∈ loadSuccesses files, alookup acc p.id = none) →
      ((loadSuccesses files).map Project.id).Nodup →
      (files.foldl loadStepP (acc, w)).1
        = acc ++ (loadSuccesses files).map fun p => (p.id, p) := by
  induction files with
  | nil => intro acc w _ _; simp [loadSuccesses]
  | cons f rest ih =>
    intro acc w hfresh hnodup
    rw [List.foldl_cons]
    cases hf : loadedOk f with
    | none =>
      have hsucc : loadSuccesses (f :: rest) = loadSuccesses rest := by
        simp [loadSuccesses, List.filterMap_cons, hf]
      rw [hsucc] at hfresh hnodup
      have hstep : loadStepP (acc, w) f = (acc, w + 1) := by
        unfold loadStepP
        rw [hf]
      rw [hstep, ih acc (w + 1) hfresh hnodup, hsucc]
    | some p =>
      have hsucc : loadSuccesses (f :: rest) = p :: loadSuccesses rest := by
        simp [loadSuccesses, List.filterMap_cons, hf]
      rw [hsucc] at hfresh hnodup
      rw [List.map_cons, List.nodup_cons] at hnodup
      have hstep : loadStepP (acc, w) f = (aset acc p.id p, w) := by
        unfold loadStepP
        rw [hf]
      have hsetp : aset acc p.id p = acc ++ [(p.id, p)] :=
        aset_of_alookup_none p (hfresh p (List.mem_cons_self _ _))
      have hfresh2 : ∀ q ∈ loadSuccesses rest,
          alookup (acc ++ [(p.id, p)]) q.id = none := by
        intro q hq
        rw [alookup_append, hfresh q (List.mem_cons_of_mem _ hq)]
        have hne : ¬(p.id = q.id) := by
          intro hpq
          exact hnodup.1 (hpq ▸ List.mem_map_of_mem Project.id hq)
        simp [alookup, hne]
      rw [hstep, hsetp, ih (acc ++ [(p.id, p)]) w hfresh2 hnodup.2, hsucc]
      simp

theorem length_filter_add_filterMap {α β : Type} (f : α → Option β)
    (l : List α) :
    (l.filter fun x => (f x).isNone).length + (l.filterMap f).length
      = l.length := by
  induction l with
  | nil => rfl
  | cons x xs ih =>
    cases hf : f x <;>
      simp [List.filter_cons, List.filterMap_cons, hf, ← ih] <;> omega

/-- C8: when exactly one project file fails to decode (and the successfully
decoded projects have pairwise distinct ids, the store's invariant),
`load_projects` reports exactly one warning and returns exactly the other
N−1 decoded projects; the per-file failure never aborts the load. -/
theorem C8_partial_failure_isolation
    (files : List (Option (List (String × Value))))
    (h1 : (files.filter fun f => (loadedOk f).isNone).length = 1)
    (h2 : ((loadSuccesses files).map Project.id).Nodup) :
    (loadProjects files).2 = 1
    ∧ (loadProjects files).1
        = (loadSuccesses files).map (fun p => (p.id, p))
    ∧ (loadProjects files).1.length = files.length - 1 := by
  have hfst : (loadProjects files).1
      = (loadSuccesses files).map fun p => (p.id, p) := by
    unfold loadProjects
    rw [loadProjects_dict files [] 0 (fun p _ => rfl) h2]
    simp
  refine ⟨?_, hfst, ?_⟩
  · unfold loadProjects
    rw [loadProjects_warning_count files [] 0, h1]
  · rw [hfst, List.length_map]
    have := length_filter_add_filterMap loadedOk files
    unfold loadSuccesses
    omega

/-- C8 (witness): three project files of which exactly the middle one is
corrupted: one warning, the two good projects returned, and the dict size
is N−1 = 2. -/
theorem C8_partial_failure_isolation_witness :
    ((c8ExampleFiles.filter fun f => (loadedOk f).isNone).length = 1)
    ∧ ((loadSuccesses c8ExampleFiles).map Project.id).Nodup
    ∧ (loadProjects c8ExampleFiles).2 = 1
    ∧ (loadProjects c8ExampleFiles).1
        = (loadSuccesses c8ExampleFiles).map (fun p => (p.id, p))
    ∧ (loadProjects c8ExampleFiles).1.length = c8ExampleFiles.length - 1 :=
  ⟨by decide, by decide,
   (C8_partial_failure_isolation c8ExampleFiles (by decide) (by decide)).1,
   (C8_partial_failure_isolation c8ExampleFiles (by decide) (by decide)).2.1,
   (C8_partial_failure_isolation c8ExampleFiles (by decide) (by decide)).2.2⟩

/-! ## Claim C9 -/

/-- C9: `set_starred` performed as one user writes only that user's own
starred file: every other path of the shared folder — in particular any
other user's starred file — is untouched. -/
theorem C9_starred_isolation :
    (∀ (fs : String → Option Value) (root user pid : String) (st : Bool)
        (path : String), path ≠ starredFilePath root user →
        setStarred fs root user pid st path = fs path)
    ∧ (∀ (fs : String → Option Value) (root a b pid : String) (st : Bool),
        a ≠ b →
        setStarred fs root a pid st (starredFilePath root b)
          = fs (starredFilePath root b)) := by
  have hframe : ∀ (fs : String → Option Value) (root user pid : String)
      (st : Bool) (path : String), path ≠ starredFilePath root user →
      setStarred fs root user pid st path = fs path := by
    intro fs root user pid st path hne
    simp [setStarred, hne]
  refine ⟨hframe, fun fs root a b pid st hab =>
    hframe fs root a pid st _ fun heq => hab ?_⟩
  unfold starredFilePath at heq
  have hd := congrArg String.data heq
  rw [String.data_append, String.data_append, String.data_append,
    String.data_append] at hd
  have hb := List.append_cancel_right hd
  rw [String.data_append, String.data_append] at hb
  exact (String.ext (List.append_cancel_left hb)).symm

/-- C9 (witness): alice starring `P1` leaves bob's starred file exactly as
it was. -/
theorem C9_starred_isolation_witness :
    ("alice" : String) ≠ "bob"
    ∧ setStarred c9ExampleFs "root" "alice" "P1" true
        (starredFilePath "root" "bob")
      = c9ExampleFs (starredFilePath "root" "bob") :=
  ⟨by decide,
   C9_starred_isolation.2 c9ExampleFs "root" "alice" "bob" "P1" true
     (by decide)⟩

/-! ## Claim C10 -/

/-- C10: the in-memory project map is always keyed by the internal id:
every pair of the map built by `load_projects` satisfies `map[k].id = k`,
the invariant is preserved by the cache update of `save_project`, a
successful `get` implies the queried key is the project's internal id, and
after a save the project is found under its internal id even when its
filename stem (`get_file_id`) is a different, external id. -/
theorem C10_cache_keyed_by_internal_id :
    (∀ files, ∀ kv ∈ (loadProjects files).1, kv.2.id = kv.1)
    ∧ (∀ (cache : List (Value × Project)) (p : Project) (now actor : Value),
        (∀ kv ∈ cache, kv.2.id = kv.1) →
        ∀ kv ∈ saveProjectCache cache p now actor, kv.2.id = kv.1)
    ∧ (∀ (cache : List (Value × Project)) (k : Value) (p : Project),
        (∀ kv ∈ cache, kv.2.id = kv.1) →
        alookup cache k = some p → p.id = k)
    ∧ (∀ (cache : List (Value × Project)) (p : Project) (now actor : Value),
        getFileId p ≠ p.id → p.id.hashable = true →
        alookup (saveProjectCache cache p now actor) p.id
          = some (stampProject p now actor)) := by
  refine ⟨?_, ?_, ?_, ?_⟩
  · intro files
    unfold loadProjects
    suffices h : ∀ (acc : List (Value × Project)) (w : Nat),
        (∀ kv ∈ acc, kv.2.id = kv.1) →
        ∀ kv ∈ (files.foldl loadStepP (acc, w)).1, kv.2.id = kv.1 by
      exact h [] 0 (by simp)
    induction files with
    | nil => intro acc w hinv; simpa using hinv
    | cons f rest ih =>
      intro acc w hinv
      rw [List.foldl_cons]
      cases hf : loadedOk f with
      | none =>
        have hstep : loadStepP (acc, w) f = (acc, w + 1) := by
          unfold loadStepP
          rw [hf]
        rw [hstep]
        exact ih acc (w + 1) hinv
      | some p =>
        have hstep : loadStepP (acc, w) f = (aset acc p.id p, w) := by
          unfold loadStepP
          rw [hf]
        rw [hstep]
        apply ih
        intro kv hkv
        rcases mem_aset hkv with hkv | hkv
        · exact hinv kv hkv
        · rw [hkv]
  · intro cache p now actor hinv kv hkv
    unfold saveProjectCache at hkv
    by_cases hh : (stampProject p now actor).id.hashable = true
    · rw [if_pos hh] at hkv
      rcases mem_aset hkv with h | h
      · exact hinv kv h
      · rw [h]
    · rw [if_neg hh] at hkv
      exact hinv kv hkv
  · intro cache k p hinv hl
    exact hinv (k, p) (mem_of_alookup hl)
  · intro cache p now actor _ hh
    unfold saveProjectCache
    have hid : (stampProject p now actor).id = p.id := rfl
    rw [if_pos (hid ▸ hh), hid]
    exact alookup_aset_self cache p.id (stampProject p now actor)

/-- C10 (witness): saving a project whose filename stem is the external id
`EXT-9` (≠ internal id `X`) into a well-keyed cache: the invariant holds
before and after, and the saved project is found under its internal id. -/
theorem C10_cache_keyed_by_internal_id_witness :
    (∀ kv ∈ c10ExampleCache, kv.2.id = kv.1)
    ∧ getFileId c10ExampleProject ≠ c10ExampleProject.id
    ∧ (∀ kv ∈ saveProjectCache c10ExampleCache c10ExampleProject
        (.vstr "2024-07-01T00:00:00") (.vstr "me"), kv.2.id = kv.1)
    ∧ alookup (saveProjectCache c10ExampleCache c10ExampleProject
        (.vstr "2024-07-01T00:00:00") (.vstr "me")) c10ExampleProject.id
      = some (stampProject c10ExampleProject
          (.vstr "2024-07-01T00:00:00") (.vstr "me")) :=
  ⟨by decide, by decide,
   C10_cache_keyed_by_internal_id.2.1 c10ExampleCache c10ExampleProject
     (.vstr "2024-07-01T00:00:00") (.vstr "me") (by decide),
   C10_cache_keyed_by_internal_id.2.2.2 c10ExampleCache c10ExampleProject
     (.vstr "2024-07-01T00:00:00") (.vstr "me") (by decide) (by decide)⟩
